import Mathlib

/-!
Verification of the media-pipeline controller of the web-video-review service.

The JavaScript sources (server/services/videoService.js and the video router)
are shallowly embedded below.  JavaScript numbers are modelled as exact
rationals (`ℚ`) with `Math.floor` / `Math.ceil` / `Math.round` as `Int.floor`,
`Int.ceil` and `⌊x + 1/2⌋`; `parseInt` / `parseFloat` results that may be `NaN`
are modelled as `Option` values (`none` = `NaN`), matching the falsiness of
`NaN` in the conditions of the source.
-/

namespace WVR

/-- JavaScript `Math.round`: round half towards positive infinity. -/
def jsRound (x : ℚ) : ℤ := ⌊x + 1/2⌋

/-- JavaScript `a || b` on nullable strings, where the empty string is falsy
(`stream.tags?.title || fallback`). -/
def jsStrOr (o : Option String) (d : String) : String :=
  match o with
  | some s => if s = "" then d else s
  | none => d

/-- JavaScript `a || b || null` on nullable strings (empty string falsy). -/
def jsStrOrOpt (a b : Option String) : Option String :=
  match a with
  | some s => if s = "" then (match b with
      | some t => if t = "" then none else some t
      | none => none) else some s
  | none => match b with
      | some t => if t = "" then none else some t
      | none => none

/-! ## Probe data model (`getVideoInfo`)

`metadata.streams.filter(s => s.codec_type === 'audio')` yields the raw
ffprobe audio-stream objects; `_detectMonoStreamCombinations` receives this
raw list, while `videoInfo.audioStreams` is the mapped per-stream record used
by the HLS argument builder. -/

/-- A raw ffprobe audio stream (the fields consulted by the service). -/
structure RawAudioStream where
  channels : ℕ
  sample_rate : ℕ
  codec_name : String
  title : Option String
  language : Option String
  deriving Repr, DecidableEq

/-- The mapped audio-stream record stored in `videoInfo.audioStreams`
(`channels: stream.channels`, `language: stream.tags?.language || null`, same
for the title). -/
structure MappedAudio where
  channels : ℕ
  language : Option String
  title : Option String
  deriving Repr, DecidableEq

/-- `tags?.x || null`: the empty string collapses to `null`. -/
def jsOrNull (o : Option String) : Option String :=
  match o with
  | some s => if s = "" then none else some s
  | none => none

def mapStream (s : RawAudioStream) : MappedAudio :=
  { channels := s.channels, language := jsOrNull s.language, title := jsOrNull s.title }

/-- The memoized probe record (`videoInfo`).  `none` models `NaN` results of
`parseInt` / `parseFloat`; `videoBitrate` is `none` when there is no video
stream (`videoInfo.video?.bitrate`), otherwise the `parseInt(...) || 0`
value. -/
structure VideoInfo where
  duration : Option ℚ
  bitrate : Option ℤ
  size : Option ℤ
  videoBitrate : Option ℤ
  rawAudioStreams : List RawAudioStream
  deriving Repr, DecidableEq

/-- `videoInfo.audioStreams` (mapped list, same order as the raw list). -/
def VideoInfo.audioStreams (v : VideoInfo) : List MappedAudio :=
  v.rawAudioStreams.map mapStream

/-- `videoInfo.audio !== null` holds exactly when an audio stream exists. -/
def VideoInfo.hasAudio (v : VideoInfo) : Bool := !v.rawAudioStreams.isEmpty

/-! ## `checkSufficientDataForDuration` (videoService.js 395-452)

The bitrate cascade and the byte threshold, translated clause by clause.
The claim speaks of a memoized probe record and an existing local file, so the
record and the current on-disk size are inputs here (the `catch` branches that
return `false` when the probe or `statSync` fails are outside the claim). -/

/-- Third clause of the bitrate cascade:
`Math.floor(size * 8 / duration)` when `size` and `duration` are truthy,
else the 8 Mbit/s fallback. -/
def codeVideoBitrateCalc (v : VideoInfo) : ℚ :=
  match v.size, v.duration with
  | some s, some d =>
    if s ≠ 0 ∧ d ≠ 0 then ((⌊(s : ℚ) * 8 / d⌋ : ℤ) : ℚ) else 8000000
  | _, _ => 8000000

/-- Second clause: `videoInfo.video?.bitrate && videoInfo.video.bitrate > 0`. -/
def codeVideoBitrateRest (v : VideoInfo) : ℚ :=
  match v.videoBitrate with
  | some b =>
    if 0 < b then (b : ℚ) else codeVideoBitrateCalc v
  | none => codeVideoBitrateCalc v

/-- The bitrate selected by `checkSufficientDataForDuration`:
`videoInfo.bitrate && videoInfo.bitrate > 0`, else the video stream's
bitrate, else the computed fallback. -/
def codeVideoBitrate (v : VideoInfo) : ℚ :=
  match v.bitrate with
  | some b =>
    if 0 < b then (b : ℚ) else codeVideoBitrateRest v
  | none => codeVideoBitrateRest v

/-- `checkSufficientDataForDuration` on a record and a current file size.
`bytesNeeded = Math.min(Math.ceil(dur * bitrate/8 * 2.0), totalSize)`;
when `totalSize` is `NaN` the `Math.min` is `NaN` and the comparison is
`false`. -/
def checkSufficient (v : VideoInfo) (currentSize : ℕ) (requiredDuration : ℚ) : Bool :=
  let videoBitrate := codeVideoBitrate v
  let bytesPerSecond := videoBitrate / 8
  let requiredBytes : ℤ := ⌈requiredDuration * bytesPerSecond * 2⌉
  match v.size with
  | none => false
  | some totalSize => decide ((currentSize : ℚ) ≥ min (requiredBytes : ℚ) (totalSize : ℚ))

/-- The bitrate exactly as the claim words it: container bitrate if positive,
else primary video stream bitrate if positive, else `size·8/duration`
(JavaScript integer floor), else a fixed 8 Mbit/s. -/
def claimBitrate (v : VideoInfo) : ℚ :=
  if _h : ∃ b, v.bitrate = some b ∧ 0 < b then ((v.bitrate.getD 0 : ℤ) : ℚ)
  else if _h2 : ∃ b, v.videoBitrate = some b ∧ 0 < b then ((v.videoBitrate.getD 0 : ℤ) : ℚ)
  else match v.size, v.duration with
    | some s, some d => if s ≠ 0 ∧ d ≠ 0 then ((⌊(s : ℚ) * 8 / d⌋ : ℤ) : ℚ) else 8000000
    | _, _ => 8000000

theorem claimBitrate_eq (v : VideoInfo) : claimBitrate v = codeVideoBitrate v := by
  unfold claimBitrate codeVideoBitrate codeVideoBitrateRest codeVideoBitrateCalc
  rcases hb : v.bitrate with _ | b <;> rcases hv : v.videoBitrate with _ | c <;>
    simp only [hb, hv, Option.getD_some] <;>
    split_ifs <;>
    simp_all

/-- C1.  For a memoized probe record whose total size is known and an existing
local file of `currentSize` bytes, `checkSufficientDataForDuration` judges the
data sufficient exactly when
`currentSize ≥ min(total_size, ceil(need_secs · bitrate/8 · 2.0))`, with the
bitrate cascade of the claim (container, primary video stream,
`size·8/duration` with integer floor, 8 Mbit/s fallback). -/
theorem checkSufficient_matches_spec (v : VideoInfo) (currentSize : ℕ)
    (needSecs : ℚ) (t : ℤ) (ht : v.size = some t) :
    checkSufficient v currentSize needSecs = true ↔
      (currentSize : ℚ) ≥
        min ((t : ℤ) : ℚ) ((⌈needSecs * claimBitrate v / 8 * 2⌉ : ℤ) : ℚ) := by
  unfold checkSufficient
  rw [ht]
  simp only [decide_eq_true_eq]
  rw [claimBitrate_eq]
  constructor
  · intro h
    rw [min_comm]
    convert h using 4
    ring
  · intro h
    rw [min_comm] at h
    convert h using 4
    ring

/-- Witness for C1 at a concrete record: container bitrate 8 Mbit/s, total
size 10^7 bytes; 5 s of data need min(10^7, ceil(5·10^6·2)) = 10^7 bytes. -/
theorem checkSufficient_matches_spec_witness :
    (VideoInfo.size ⟨some 100, some 8000000, some 10000000, none, []⟩ = some 10000000) ∧
      (checkSufficient ⟨some 100, some 8000000, some 10000000, none, []⟩ 10000000 5 = true ↔
        ((10000000 : ℕ) : ℚ) ≥
          min (((10000000 : ℤ) : ℤ) : ℚ)
            ((⌈(5 : ℚ) * claimBitrate ⟨some 100, some 8000000, some 10000000, none, []⟩ / 8 * 2⌉ : ℤ) : ℚ)) :=
  ⟨rfl, checkSufficient_matches_spec ⟨some 100, some 8000000, some 10000000, none, []⟩ 10000000 5 10000000 rfl⟩

/-! ## `_detectMonoStreamCombinations` (videoService.js 1362-1390)

The source filters the raw stream array down to the mono streams and recovers
the original index of the first two with `findIndex(s => s === streamK)`
(object identity); since the ffprobe stream objects are distinct, that is the
original position of the first, respectively second, mono stream.  We keep the
original index alongside each filtered stream. -/

instance : Inhabited RawAudioStream := ⟨⟨0, 0, "", none, none⟩⟩

/-- The mono streams (`parseInt(stream.channels) === 1`) paired with their
original indices, starting the numbering at `n`. -/
def monoWithIdx : ℕ → List RawAudioStream → List (ℕ × RawAudioStream)
  | _, [] => []
  | n, s :: rest =>
    if s.channels = 1 then (n, s) :: monoWithIdx (n + 1) rest
    else monoWithIdx (n + 1) rest

/-- The `monoStreamCombinations` hint record. -/
structure MonoCombo where
  canCombineFirstTwo : Bool
  compatible : Bool
  stream1Index : ℕ
  stream2Index : ℕ
  resultTitle : String
  resultLanguage : Option String
  deriving Repr, DecidableEq

/-- `_detectMonoStreamCombinations`: `null` unless the asset has at least two
audio streams of which at least two are mono; `compatible` compares sample
rates and codec names; the title and language are synthesized with the
`Track 1` / `Track 2` fallbacks of the source. -/
def detectMonoStreamCombinations (streams : List RawAudioStream) : Option MonoCombo :=
  if streams.length < 2 then none
  else
    match monoWithIdx 0 streams with
    | (i, s1) :: (j, s2) :: _ =>
      some
        { canCombineFirstTwo := true
          compatible := decide (s1.sample_rate = s2.sample_rate ∧ s1.codec_name = s2.codec_name)
          stream1Index := i
          stream2Index := j
          resultTitle :=
            jsStrOr s1.title "Track 1" ++ " + " ++ jsStrOr s2.title "Track 2" ++ " (Stereo)"
          resultLanguage := jsStrOrOpt s1.language s2.language }
    | _ => none

theorem monoWithIdx_length (l : List RawAudioStream) :
    ∀ n, (monoWithIdx n l).length = (l.filter (fun s => s.channels = 1)).length := by
  induction l with
  | nil => intro n; rfl
  | cons s rest ih =>
    intro n
    by_cases h : s.channels = 1 <;> simp [monoWithIdx, List.filter, h, ih]

theorem getD_drop {α : Type} (d : α) :
    ∀ (n : ℕ) (l : List α) (k : ℕ), (l.drop n).getD k d = l.getD (n + k) d
  | 0, _, _ => by simp
  | n + 1, [], k => by simp
  | n + 1, a :: t, k => by
    have hstep : n + 1 + k = (n + k) + 1 := by omega
    rw [List.drop_succ_cons, hstep, List.getD_cons_succ]
    exact getD_drop d n t k

/-- Structure of a nonempty `monoWithIdx` result: the head carries the least
mono index at or after the start, its stream, and the tail restarts just past
that index. -/
theorem monoWithIdx_cons_spec :
    ∀ (l : List RawAudioStream) (n i : ℕ) (s : RawAudioStream)
      (rest : List (ℕ × RawAudioStream)),
      monoWithIdx n l = (i, s) :: rest →
      n ≤ i ∧ i - n < l.length ∧ l.getD (i - n) default = s ∧ s.channels = 1 ∧
        (∀ k, k < i - n → (l.getD k default).channels ≠ 1) ∧
        rest = monoWithIdx (i + 1) (l.drop (i - n + 1))
  | [], n, i, s, rest => by intro h; simp [monoWithIdx] at h
  | s' :: l', n, i, s, rest => by
    intro h
    by_cases hc : s'.channels = 1
    · rw [monoWithIdx, if_pos hc] at h
      obtain ⟨h1, h2⟩ := List.cons.inj h
      injection h1 with hi hs
      subst hi hs
      refine ⟨le_refl n, by simp, by simp, hc, ?_, ?_⟩
      · intro k hk; omega
      · have hone : n - n + 1 = 1 := by omega
        rw [hone, List.drop_succ_cons, List.drop_zero]
        exact h2.symm
    · rw [monoWithIdx, if_neg hc] at h
      obtain ⟨hle, hlt, hget, hch, hlow, hrest⟩ :=
        monoWithIdx_cons_spec l' (n + 1) i s rest h
      have hni : n + 1 ≤ i := hle
      refine ⟨by omega, ?_, ?_, hch, ?_, ?_⟩
      · simp only [List.length_cons]; omega
      · have : i - n = (i - (n + 1)) + 1 := by omega
        rw [this, List.getD_cons_succ]
        exact hget
      · intro k hk
        match k with
        | 0 => simpa using hc
        | k' + 1 =>
          rw [List.getD_cons_succ]
          exact hlow k' (by omega)
      · have : i - n + 1 = (i - (n + 1) + 1) + 1 := by omega
        rw [this, List.drop_succ_cons]
        exact hrest

/-- Index `k` holds a mono stream. -/
def isMonoAt (streams : List RawAudioStream) (k : ℕ) : Prop :=
  k < streams.length ∧ (streams.getD k default).channels = 1

/-- C7.  For every raw stream list with at least two mono audio streams, the
hint names the first two mono streams by their original indices, sets
`compatible` true iff their sample rates and codec names agree, synthesizes
the `TitleA + TitleB (Stereo)` title and takes the first stream's language
with the second's as fallback. -/
theorem monoHint_fields_correct (streams : List RawAudioStream)
    (h : 2 ≤ (streams.filter (fun s => s.channels = 1)).length) :
    ∃ c, detectMonoStreamCombinations streams = some c ∧
      c.canCombineFirstTwo = true ∧
      isMonoAt streams c.stream1Index ∧
      (∀ k, k < c.stream1Index → ¬ isMonoAt streams k) ∧
      c.stream1Index < c.stream2Index ∧
      isMonoAt streams c.stream2Index ∧
      (∀ k, c.stream1Index < k → k < c.stream2Index → ¬ isMonoAt streams k) ∧
      (c.compatible = true ↔
        ((streams.getD c.stream1Index default).sample_rate =
            (streams.getD c.stream2Index default).sample_rate ∧
          (streams.getD c.stream1Index default).codec_name =
            (streams.getD c.stream2Index default).codec_name)) ∧
      c.resultTitle =
        jsStrOr (streams.getD c.stream1Index default).title "Track 1" ++ " + " ++
          jsStrOr (streams.getD c.stream2Index default).title "Track 2" ++ " (Stereo)" ∧
      c.resultLanguage =
        jsStrOrOpt (streams.getD c.stream1Index default).language
          (streams.getD c.stream2Index default).language := by
  have hlenmono : 2 ≤ (monoWithIdx 0 streams).length := by
    rw [monoWithIdx_length]; exact h
  have hlen2 : ¬ streams.length < 2 := by
    have := List.length_filter_le (fun s => s.channels = 1) streams
    omega
  rcases hm : monoWithIdx 0 streams with _ | ⟨⟨i, s1⟩, tail⟩
  · rw [hm] at hlenmono; simp at hlenmono
  rcases tail with _ | ⟨⟨j, s2⟩, rest2⟩
  · rw [hm] at hlenmono; simp at hlenmono
  obtain ⟨-, hi_lt, hget1, hch1, hlow1, hrest1⟩ :=
    monoWithIdx_cons_spec streams 0 i s1 (⟨j, s2⟩ :: rest2) hm
  obtain ⟨hj_ge, hj_lt, hget2, hch2, hlow2, -⟩ :=
    monoWithIdx_cons_spec (streams.drop (i - 0 + 1)) (i + 1) j s2 rest2 hrest1.symm
  simp only [Nat.sub_zero] at hi_lt hget1 hlow1 hrest1 hj_lt hget2 hlow2
  have hdroplen : (streams.drop (i + 1)).length = streams.length - (i + 1) :=
    List.length_drop _ _
  have hj_lt' : j < streams.length := by omega
  have hget2' : streams.getD j default = s2 := by
    have hd := getD_drop (default : RawAudioStream) (i + 1) streams (j - (i + 1))
    rw [hget2] at hd
    have hix : i + 1 + (j - (i + 1)) = j := by omega
    rw [hix] at hd
    exact hd.symm
  have hdet : detectMonoStreamCombinations streams = some
      ⟨true, decide (s1.sample_rate = s2.sample_rate ∧ s1.codec_name = s2.codec_name), i, j,
        jsStrOr s1.title "Track 1" ++ " + " ++ jsStrOr s2.title "Track 2" ++ " (Stereo)",
        jsStrOrOpt s1.language s2.language⟩ := by
    rw [detectMonoStreamCombinations, if_neg hlen2, hm]
  refine ⟨_, hdet, rfl, ?_, ?_, ?_, ?_, ?_, ?_, ?_, ?_⟩ <;> dsimp only
  · exact ⟨hi_lt, by rw [hget1]; exact hch1⟩
  · intro k hk hmono
    exact hlow1 k hk hmono.2
  · omega
  · exact ⟨hj_lt', by rw [hget2']; exact hch2⟩
  · intro k hk1 hk2 hmono
    have hk' : k - (i + 1) < j - (i + 1) := by omega
    have hbad := hlow2 (k - (i + 1)) hk'
    rw [getD_drop] at hbad
    have hik : i + 1 + (k - (i + 1)) = k := by omega
    rw [hik] at hbad
    exact hbad hmono.2
  · rw [hget1, hget2']
    simp
  · rw [hget1, hget2']
  · rw [hget1, hget2']

/-- A concrete four-track asset (all mono) used as the C7 witness input. -/
def monoWitnessStreams : List RawAudioStream :=
  [⟨1, 48000, "pcm_s24le", some "L", some "eng"⟩,
   ⟨1, 48000, "pcm_s24le", some "R", none⟩,
   ⟨1, 44100, "pcm_s24le", none, none⟩,
   ⟨1, 48000, "aac", none, none⟩]

/-- Witness for C7: four mono tracks; the hint picks indices 0 and 1. -/
theorem monoHint_fields_correct_witness :
    ∃ c, detectMonoStreamCombinations monoWitnessStreams = some c ∧
      c.canCombineFirstTwo = true ∧
      isMonoAt monoWitnessStreams c.stream1Index ∧
      (∀ k, k < c.stream1Index → ¬ isMonoAt monoWitnessStreams k) ∧
      c.stream1Index < c.stream2Index ∧
      isMonoAt monoWitnessStreams c.stream2Index ∧
      (∀ k, c.stream1Index < k → k < c.stream2Index → ¬ isMonoAt monoWitnessStreams k) ∧
      (c.compatible = true ↔
        ((monoWitnessStreams.getD c.stream1Index default).sample_rate =
            (monoWitnessStreams.getD c.stream2Index default).sample_rate ∧
          (monoWitnessStreams.getD c.stream1Index default).codec_name =
            (monoWitnessStreams.getD c.stream2Index default).codec_name)) ∧
      c.resultTitle =
        jsStrOr (monoWitnessStreams.getD c.stream1Index default).title "Track 1" ++ " + " ++
          jsStrOr (monoWitnessStreams.getD c.stream2Index default).title "Track 2" ++ " (Stereo)" ∧
      c.resultLanguage =
        jsStrOrOpt (monoWitnessStreams.getD c.stream1Index default).language
          (monoWitnessStreams.getD c.stream2Index default).language :=
  monoHint_fields_correct monoWitnessStreams (by decide)

/-! ## HLS generation arguments (`_generateNativeLiveHLSInternal`, videoService.js 670-1007)

We embed the audio-relevant parts of the ffmpeg argument list: input
selection, the audio codec flags, the stereo-merge filter and the stream
mapping/metadata loops.  The mutable `index` / `outputIndex` counters of the
two `forEach` loops become explicit accumulator arguments. -/

/-- Line 834: the merge is gated on `canCombineFirstTwo` only; the
`compatible` flag of the hint is never consulted. -/
def hasMonoCombination (v : VideoInfo) : Bool :=
  v.hasAudio && !v.audioStreams.isEmpty &&
    (match detectMonoStreamCombinations v.rawAudioStreams with
     | some c => c.canCombineFirstTwo
     | none => false)

/-- Lines 797-807: with audio the source is the only input; without audio a
silent stereo `anullsrc` input is pushed ahead of the video input. -/
def hlsInputArgs (hasAudio : Bool) (inputSource : String) : List String :=
  if hasAudio then ["-i", inputSource]
  else ["-f", "lavfi", "-i", "anullsrc=channel_layout=stereo:sample_rate=44100",
        "-i", inputSource]

/-- Line 811: all mapped audio outputs are AAC at 128 kbps. -/
def hlsAudioCodecArgs : List String := ["-c:a", "aac", "-b:a", "128k"]

/-- Lines 846-853: the `amerge` filter for the hinted mono pair (variant
without the goniometer split). -/
def stereoFilter (v : VideoInfo) (showGoniometer : Bool) : String :=
  if hasMonoCombination v then
    match detectMonoStreamCombinations v.rawAudioStreams with
    | some combo =>
      if showGoniometer && v.hasAudio then
        "[0:a:" ++ toString combo.stream1Index ++ "][0:a:" ++ toString combo.stream2Index ++
          "]amerge=inputs=2[stereo_temp];[stereo_temp]asplit=2[stereo0][stereo_gonio]"
      else
        "[0:a:" ++ toString combo.stream1Index ++ "][0:a:" ++ toString combo.stream2Index ++
          "]amerge=inputs=2[stereo0]"
    | none => ""
  else ""

/-- Lines 898-904: `-map 0:a:index` for every stream whose index is neither
hinted mono index. -/
def comboMapLoop : List MappedAudio → ℕ → ℕ → ℕ → List String
  | [], _, _, _ => []
  | _ :: rest, idx, i1, i2 =>
    if idx ≠ i1 ∧ idx ≠ i2 then
      ["-map", "0:a:" ++ toString idx] ++ comboMapLoop rest (idx + 1) i1 i2
    else comboMapLoop rest (idx + 1) i1 i2

/-- Lines 911-920: metadata for the remaining streams, numbered by the
`outputIndex` counter that starts at 1. -/
def comboMetaLoop : List MappedAudio → ℕ → ℕ → ℕ → ℕ → List String
  | [], _, _, _, _ => []
  | s :: rest, idx, out, i1, i2 =>
    if idx ≠ i1 ∧ idx ≠ i2 then
      ["-metadata:s:a:" ++ toString out, "language=" ++ jsStrOr s.language "und",
       "-metadata:s:a:" ++ toString out,
       "title=" ++ jsStrOr s.title ("Track " ++ toString (out + 1))]
        ++ comboMetaLoop rest (idx + 1) (out + 1) i1 i2
    else comboMetaLoop rest (idx + 1) out i1 i2

/-- Lines 922-931: the 1:1 mapping used when no mono combination applies. -/
def standardAudioLoop : List MappedAudio → ℕ → List String
  | [], _ => []
  | s :: rest, idx =>
    ["-map", "0:a:" ++ toString idx,
     "-metadata:s:a:" ++ toString idx, "language=" ++ jsStrOr s.language "und",
     "-metadata:s:a:" ++ toString idx,
     "title=" ++ jsStrOr s.title ("Track " ++ toString (idx + 1))]
      ++ standardAudioLoop rest (idx + 1)

/-- Lines 889-931: the audio portion of the ffmpeg argument list. -/
def audioMapArgs (v : VideoInfo) : List String :=
  if v.hasAudio && !v.audioStreams.isEmpty then
    if hasMonoCombination v then
      match detectMonoStreamCombinations v.rawAudioStreams with
      | some combo =>
        ["-map", "[stereo0]"]
          ++ comboMapLoop v.audioStreams 0 combo.stream1Index combo.stream2Index
          ++ ["-metadata:s:a:0", "language=" ++ jsStrOr combo.resultLanguage "und",
              "-metadata:s:a:0", "title=" ++ combo.resultTitle]
          ++ comboMetaLoop v.audioStreams 0 1 combo.stream1Index combo.stream2Index
      | none => standardAudioLoop v.audioStreams 0
    else standardAudioLoop v.audioStreams 0
  else []

/-- The sequence of `-map` targets of the whole command: first the audio maps
(lines 889-931), then `[hls]` (line 936) and `[thumbs]` (line 1000). -/
def mapTargetsOf : List String → List String
  | [] => []
  | "-map" :: t :: rest => t :: mapTargetsOf rest
  | _ :: rest => mapTargetsOf rest

def hlsMapTargets (v : VideoInfo) : List String :=
  mapTargetsOf (audioMapArgs v) ++ ["[hls]", "[thumbs]"]

theorem detect_length_ge (l : List RawAudioStream) (c : MonoCombo)
    (h : detectMonoStreamCombinations l = some c) : 2 ≤ l.length := by
  unfold detectMonoStreamCombinations at h
  by_cases hl : l.length < 2
  · rw [if_pos hl] at h; cases h
  · omega

theorem detect_canCombine (l : List RawAudioStream) (c : MonoCombo)
    (h : detectMonoStreamCombinations l = some c) : c.canCombineFirstTwo = true := by
  unfold detectMonoStreamCombinations at h
  split at h
  · cases h
  · split at h
    · cases h; rfl
    · cases h

theorem comboMapLoop_eq (i1 i2 : ℕ) :
    ∀ (l : List MappedAudio) (n : ℕ),
      comboMapLoop l n i1 i2 =
        ((l.enumFrom n).filter (fun p => p.1 ≠ i1 ∧ p.1 ≠ i2)).flatMap
          (fun p => ["-map", "0:a:" ++ toString p.1])
  | [], _ => rfl
  | s :: rest, n => by
    by_cases hn : n ≠ i1 ∧ n ≠ i2 <;>
      simp [comboMapLoop, List.enumFrom, hn, comboMapLoop_eq i1 i2 rest (n + 1)]

theorem comboMetaLoop_eq (i1 i2 : ℕ) :
    ∀ (l : List MappedAudio) (n out : ℕ),
      comboMetaLoop l n out i1 i2 =
        (((l.enumFrom n).filter (fun p => p.1 ≠ i1 ∧ p.1 ≠ i2)).enumFrom out).flatMap
          (fun q =>
            ["-metadata:s:a:" ++ toString q.1, "language=" ++ jsStrOr q.2.2.language "und",
             "-metadata:s:a:" ++ toString q.1,
             "title=" ++ jsStrOr q.2.2.title ("Track " ++ toString (q.1 + 1))])
  | [], _, _ => rfl
  | s :: rest, n, out => by
    by_cases hn : n ≠ i1 ∧ n ≠ i2 <;>
      simp [comboMetaLoop, List.enumFrom, hn, comboMetaLoop_eq i1 i2 rest (n + 1)]

/-- C2 (amended).  Whenever the probe record carries the mono hint, the HLS
audio mapping maps the merged `[stereo0]` first (audio track 0, labelled with
the synthesized title/language), then every other audio stream 1:1 in
original order with output indices 1, 2, …; the merge filter joins exactly
the two hinted indices.  No compatibility condition is consulted. -/
theorem hlsAudioMapping_with_hint (v : VideoInfo) (combo : MonoCombo)
    (h : detectMonoStreamCombinations v.rawAudioStreams = some combo) :
    audioMapArgs v =
      ["-map", "[stereo0]"]
        ++ ((v.audioStreams.enumFrom 0).filter
              (fun p => p.1 ≠ combo.stream1Index ∧ p.1 ≠ combo.stream2Index)).flatMap
            (fun p => ["-map", "0:a:" ++ toString p.1])
        ++ ["-metadata:s:a:0", "language=" ++ jsStrOr combo.resultLanguage "und",
            "-metadata:s:a:0", "title=" ++ combo.resultTitle]
        ++ ((((v.audioStreams.enumFrom 0).filter
                (fun p => p.1 ≠ combo.stream1Index ∧ p.1 ≠ combo.stream2Index)).enumFrom 1).flatMap
              (fun q =>
                ["-metadata:s:a:" ++ toString q.1, "language=" ++ jsStrOr q.2.2.language "und",
                 "-metadata:s:a:" ++ toString q.1,
                 "title=" ++ jsStrOr q.2.2.title ("Track " ++ toString (q.1 + 1))])) ∧
      stereoFilter v false =
        "[0:a:" ++ toString combo.stream1Index ++ "][0:a:" ++ toString combo.stream2Index ++
          "]amerge=inputs=2[stereo0]" := by
  have hlen := detect_length_ge _ _ h
  have hne : v.rawAudioStreams.isEmpty = false := by
    cases hv : v.rawAudioStreams with
    | nil => rw [hv] at hlen; simp at hlen
    | cons a t => rfl
  have hAudio : v.hasAudio = true := by
    unfold VideoInfo.hasAudio; rw [hne]; rfl
  have hmapsne : v.audioStreams.isEmpty = false := by
    unfold VideoInfo.audioStreams
    cases hv : v.rawAudioStreams with
    | nil => rw [hv] at hlen; simp at hlen
    | cons a t => rfl
  have hmono : hasMonoCombination v = true := by
    unfold hasMonoCombination
    rw [hAudio, hmapsne, h]
    simp [detect_canCombine _ _ h]
  constructor
  · unfold audioMapArgs
    rw [hAudio, hmapsne, hmono, h]
    simp only [Bool.not_false, Bool.and_self, if_true]
    rw [comboMapLoop_eq, comboMetaLoop_eq]
  · unfold stereoFilter
    rw [hmono, h]
    simp [hAudio]

/-- Witness for C2 (amended): two compatible mono tracks plus a stereo track;
the merged pair maps first, the stereo track follows as output 1. -/
theorem hlsAudioMapping_with_hint_witness :
    ∃ combo, detectMonoStreamCombinations
        (VideoInfo.rawAudioStreams ⟨some 30, some 1000000, some 4000000, none,
          [⟨1, 48000, "aac", some "L", some "swe"⟩, ⟨1, 48000, "aac", some "R", none⟩,
           ⟨2, 44100, "aac", none, none⟩]⟩) = some combo ∧
      (audioMapArgs ⟨some 30, some 1000000, some 4000000, none,
          [⟨1, 48000, "aac", some "L", some "swe"⟩, ⟨1, 48000, "aac", some "R", none⟩,
           ⟨2, 44100, "aac", none, none⟩]⟩ =
        ["-map", "[stereo0]"]
          ++ (((VideoInfo.audioStreams ⟨some 30, some 1000000, some 4000000, none,
                [⟨1, 48000, "aac", some "L", some "swe"⟩, ⟨1, 48000, "aac", some "R", none⟩,
                 ⟨2, 44100, "aac", none, none⟩]⟩).enumFrom 0).filter
                (fun p => p.1 ≠ combo.stream1Index ∧ p.1 ≠ combo.stream2Index)).flatMap
              (fun p => ["-map", "0:a:" ++ toString p.1])
          ++ ["-metadata:s:a:0", "language=" ++ jsStrOr combo.resultLanguage "und",
              "-metadata:s:a:0", "title=" ++ combo.resultTitle]
          ++ (((((VideoInfo.audioStreams ⟨some 30, some 1000000, some 4000000, none,
                  [⟨1, 48000, "aac", some "L", some "swe"⟩, ⟨1, 48000, "aac", some "R", none⟩,
                   ⟨2, 44100, "aac", none, none⟩]⟩).enumFrom 0).filter
                  (fun p => p.1 ≠ combo.stream1Index ∧ p.1 ≠ combo.stream2Index)).enumFrom 1).flatMap
                (fun q =>
                  ["-metadata:s:a:" ++ toString q.1, "language=" ++ jsStrOr q.2.2.language "und",
                   "-metadata:s:a:" ++ toString q.1,
                   "title=" ++ jsStrOr q.2.2.title ("Track " ++ toString (q.1 + 1))])) ∧
        stereoFilter ⟨some 30, some 1000000, some 4000000, none,
            [⟨1, 48000, "aac", some "L", some "swe"⟩, ⟨1, 48000, "aac", some "R", none⟩,
             ⟨2, 44100, "aac", none, none⟩]⟩ false =
          "[0:a:" ++ toString combo.stream1Index ++ "][0:a:" ++ toString combo.stream2Index ++
            "]amerge=inputs=2[stereo0]") :=
  ⟨⟨true, true, 0, 1, "L + R (Stereo)", some "swe"⟩, by decide,
    hlsAudioMapping_with_hint _ _ (by decide)⟩

/-- Counterexample for C2 as stated: two mono streams whose sample rates
differ (48 kHz vs 44.1 kHz), so the hint is incompatible, yet the transcoder
still merges them (`[stereo0]` is mapped and the `amerge` filter is built). -/
theorem hlsMerge_incompatible_counterexample :
    ((detectMonoStreamCombinations
        (VideoInfo.rawAudioStreams ⟨some 30, some 1000000, some 4000000, none,
          [⟨1, 48000, "pcm_s16le", some "A", some "eng"⟩,
           ⟨1, 44100, "pcm_s16le", some "B", none⟩]⟩)).map (fun c => c.compatible) =
      some false) ∧
    audioMapArgs ⟨some 30, some 1000000, some 4000000, none,
        [⟨1, 48000, "pcm_s16le", some "A", some "eng"⟩,
         ⟨1, 44100, "pcm_s16le", some "B", none⟩]⟩ =
      ["-map", "[stereo0]", "-metadata:s:a:0", "language=eng",
       "-metadata:s:a:0", "title=A + B (Stereo)"] ∧
    stereoFilter ⟨some 30, some 1000000, some 4000000, none,
        [⟨1, 48000, "pcm_s16le", some "A", some "eng"⟩,
         ⟨1, 44100, "pcm_s16le", some "B", none⟩]⟩ false =
      "[0:a:0][0:a:1]amerge=inputs=2[stereo0]" := by decide

/-- C10.  For a video-only asset the command gains the silent `anullsrc`
stereo input ahead of the video input and the global AAC audio codec flags,
but the explicit `-map` list contains only the `[hls]` video branch and the
`[thumbs]` branch — the synthesized audio is never mapped into the output,
so the generated HLS stream carries no audio track. -/
theorem silentAudio_never_mapped :
    (VideoInfo.hasAudio ⟨some 20, some 1000000, some 2500000, some 900000, []⟩ = false) ∧
    hlsInputArgs (VideoInfo.hasAudio ⟨some 20, some 1000000, some 2500000, some 900000, []⟩)
        "input.mp4" =
      ["-f", "lavfi", "-i", "anullsrc=channel_layout=stereo:sample_rate=44100",
       "-i", "input.mp4"] ∧
    hlsAudioCodecArgs = ["-c:a", "aac", "-b:a", "128k"] ∧
    hlsMapTargets ⟨some 20, some 1000000, some 2500000, some 900000, []⟩ =
      ["[hls]", "[thumbs]"] := by decide

/-! ## Waveform audio-filter selection (`_generateWaveformData`, videoService.js 1744-1765) -/

/-- Which audio source feeds the `compand`/`aresample=8000` downsampling
chain. -/
inductive WaveformSource
  | complexSecond
  | merged (i j : ℕ)
  | standardFirst
  deriving Repr, DecidableEq

/-- Line 1749: more than two audio streams of which more than two are mono. -/
def waveformHasComplexLayout (v : VideoInfo) : Bool :=
  decide (2 < v.audioStreams.length) &&
    decide (2 < (v.audioStreams.filter (fun s => s.channels = 1)).length)

/-- Lines 1748-1765: complex layouts pick the single stream `0:a:1`;
otherwise the mono hint (gated on `canCombineFirstTwo` only) selects the
pre-merged pair; the default chain reads the first audio stream `[0:a]`. -/
def waveformAudioChoice (v : VideoInfo) : WaveformSource :=
  if waveformHasComplexLayout v then .complexSecond
  else
    match detectMonoStreamCombinations v.rawAudioStreams with
    | some combo =>
      if combo.canCombineFirstTwo then .merged combo.stream1Index combo.stream2Index
      else .standardFirst
    | none => .standardFirst

/-- The literal `audioFilter` string built by the source for each choice. -/
def waveformAudioFilter (v : VideoInfo) : String :=
  match waveformAudioChoice v with
  | .complexSecond =>
    "[0:a:1]aformat=channel_layouts=mono[audio];[audio]compand,aresample=8000[out]"
  | .merged i j =>
    "[0:a:" ++ toString i ++ "]aformat=channel_layouts=mono[left];[0:a:" ++ toString j ++
      "]aformat=channel_layouts=mono[right];[left][right]amerge=inputs=2[merged];" ++
      "[merged]aformat=channel_layouts=stereo[stereo];[stereo]compand,aresample=8000[out]"
  | .standardFirst =>
    "[0:a]aformat=channel_layouts=stereo|mono[audio];[audio]compand,aresample=8000[out]"

theorem mapped_mono_count (v : VideoInfo) :
    (v.audioStreams.filter (fun s => s.channels = 1)).length =
      (v.rawAudioStreams.filter (fun s => s.channels = 1)).length := by
  unfold VideoInfo.audioStreams
  rw [List.filter_map, List.length_map]
  apply congrArg List.length
  apply List.filter_congr
  intro a _
  simp [mapStream]

theorem detect_none_mono_lt (l : List RawAudioStream)
    (h : detectMonoStreamCombinations l = none) :
    (l.filter (fun s => s.channels = 1)).length < 2 := by
  unfold detectMonoStreamCombinations at h
  by_cases hl : l.length < 2
  · have := List.length_filter_le (fun s => s.channels = 1) l
    omega
  · rw [if_neg hl] at h
    rcases hm : monoWithIdx 0 l with _ | ⟨⟨i, s1⟩, _ | ⟨⟨j, s2⟩, rest⟩⟩ <;>
      rw [← monoWithIdx_length l 0, hm]
    · simp
    · simp
    · rw [hm] at h; cases h

/-- C6 (amended).  For an asset with audio: when the layout is complex (more
than two audio streams, more than two of them mono) the extractor feeds the
single stream at input index 1; otherwise, when the mono hint holds, it
pre-merges the two hinted streams into a stereo pair; when the hint is absent
it feeds the first audio stream. -/
theorem waveformFilter_selection (v : VideoInfo) (_hA : v.hasAudio = true) :
    (waveformHasComplexLayout v = true → waveformAudioChoice v = .complexSecond) ∧
    (waveformHasComplexLayout v = false →
      ∀ combo, detectMonoStreamCombinations v.rawAudioStreams = some combo →
        waveformAudioChoice v = .merged combo.stream1Index combo.stream2Index) ∧
    (detectMonoStreamCombinations v.rawAudioStreams = none →
      waveformAudioChoice v = .standardFirst) := by
  refine ⟨?_, ?_, ?_⟩
  · intro hc
    unfold waveformAudioChoice
    rw [hc]
    rfl
  · intro hc combo hdet
    unfold waveformAudioChoice
    rw [hc, hdet]
    simp [detect_canCombine _ _ hdet]
  · intro hdet
    have hcomplex : waveformHasComplexLayout v = false := by
      unfold waveformHasComplexLayout
      have hcount := detect_none_mono_lt _ hdet
      rw [← mapped_mono_count] at hcount
      simp only [Bool.and_eq_false_iff, decide_eq_false_iff_not, not_lt]
      right
      omega
    unfold waveformAudioChoice
    rw [hcomplex, hdet]
    rfl

/-- Witness for C6 (amended): two compatible mono streams, no complex layout;
the extractor pre-merges streams 0 and 1. -/
theorem waveformFilter_selection_witness :
    (waveformHasComplexLayout ⟨some 30, some 1000000, some 4000000, none,
        [⟨1, 48000, "aac", some "L", none⟩, ⟨1, 48000, "aac", some "R", none⟩]⟩ = true →
      waveformAudioChoice ⟨some 30, some 1000000, some 4000000, none,
        [⟨1, 48000, "aac", some "L", none⟩, ⟨1, 48000, "aac", some "R", none⟩]⟩ =
        .complexSecond) ∧
    (waveformHasComplexLayout ⟨some 30, some 1000000, some 4000000, none,
        [⟨1, 48000, "aac", some "L", none⟩, ⟨1, 48000, "aac", some "R", none⟩]⟩ = false →
      ∀ combo, detectMonoStreamCombinations
          (VideoInfo.rawAudioStreams ⟨some 30, some 1000000, some 4000000, none,
            [⟨1, 48000, "aac", some "L", none⟩, ⟨1, 48000, "aac", some "R", none⟩]⟩) =
            some combo →
        waveformAudioChoice ⟨some 30, some 1000000, some 4000000, none,
          [⟨1, 48000, "aac", some "L", none⟩, ⟨1, 48000, "aac", some "R", none⟩]⟩ =
          .merged combo.stream1Index combo.stream2Index) ∧
    (detectMonoStreamCombinations
        (VideoInfo.rawAudioStreams ⟨some 30, some 1000000, some 4000000, none,
          [⟨1, 48000, "aac", some "L", none⟩, ⟨1, 48000, "aac", some "R", none⟩]⟩) = none →
      waveformAudioChoice ⟨some 30, some 1000000, some 4000000, none,
        [⟨1, 48000, "aac", some "L", none⟩, ⟨1, 48000, "aac", some "R", none⟩]⟩ =
        .standardFirst) :=
  waveformFilter_selection _ (by decide)

/-- Counterexample for C6 as stated: three mono streams.  The mono hint holds
(indices 0 and 1, compatible), yet the extractor does not pre-merge: the
complex-layout branch wins and feeds the single stream `0:a:1`. -/
theorem waveform_complexLayout_counterexample :
    detectMonoStreamCombinations
        (VideoInfo.rawAudioStreams ⟨some 30, some 1000000, some 4000000, none,
          [⟨1, 48000, "aac", none, none⟩, ⟨1, 48000, "aac", none, none⟩,
           ⟨1, 48000, "aac", none, none⟩]⟩) =
      some ⟨true, true, 0, 1, "Track 1 + Track 2 (Stereo)", none⟩ ∧
    waveformAudioChoice ⟨some 30, some 1000000, some 4000000, none,
        [⟨1, 48000, "aac", none, none⟩, ⟨1, 48000, "aac", none, none⟩,
         ⟨1, 48000, "aac", none, none⟩]⟩ = .complexSecond ∧
    waveformAudioChoice ⟨some 30, some 1000000, some 4000000, none,
        [⟨1, 48000, "aac", none, none⟩, ⟨1, 48000, "aac", none, none⟩,
         ⟨1, 48000, "aac", none, none⟩]⟩ ≠ .merged 0 1 ∧
    waveformAudioFilter ⟨some 30, some 1000000, some 4000000, none,
        [⟨1, 48000, "aac", none, none⟩, ⟨1, 48000, "aac", none, none⟩,
         ⟨1, 48000, "aac", none, none⟩]⟩ =
      "[0:a:1]aformat=channel_layouts=mono[audio];[audio]compand,aresample=8000[out]" := by
  decide

/-! ## LRU cache eviction (`cleanupCacheIfNeeded`, videoService.js 455-488)

The local cache map is a list of (s3Key, entry) pairs.  The source sorts the
entries by `lastAccessed` ascending (a stable sort; `insertionSort` here) and
unlinks files until `totalSize - removedSize ≤ 0.8 · maxLocalCacheSize`; every
`unlinkSync` is modelled as succeeding.  The loop consults neither the
`isPartial` flag of an entry nor the HLS session registry, so the session-key
list parameter is ignored, mirroring the source. -/

structure CacheFile where
  size : ℕ
  lastAccessed : ℕ
  partialFlag : Bool
  deriving Repr, DecidableEq

abbrev CacheEntry := String × CacheFile

/-- The comparator `(a, b) => a.lastAccessed - b.lastAccessed`. -/
def cacheLaLE (a b : CacheEntry) : Prop := a.2.lastAccessed ≤ b.2.lastAccessed

instance : DecidableRel cacheLaLE := fun a b =>
  inferInstanceAs (Decidable (a.2.lastAccessed ≤ b.2.lastAccessed))

instance : IsTotal CacheEntry cacheLaLE :=
  ⟨fun a b => Nat.le_total a.2.lastAccessed b.2.lastAccessed⟩

instance : IsTrans CacheEntry cacheLaLE := ⟨fun _ _ _ => Nat.le_trans⟩

def totalCacheSize (l : List CacheEntry) : ℕ := (l.map (fun e => e.2.size)).sum

/-- Lines 467-480: walk the LRU-sorted list; break as soon as
`total - removed ≤ target`, else delete the entry.  Returns
(deleted, kept-suffix). -/
def evictLoop (target : ℚ) : ℚ → List CacheEntry → List CacheEntry × List CacheEntry
  | _, [] => ([], [])
  | remaining, f :: rest =>
    if remaining ≤ target then ([], f :: rest)
    else
      let r := evictLoop target (remaining - f.2.size) rest
      (f :: r.1, r.2)

/-- `cleanupCacheIfNeeded`: a no-op unless the total exceeds the budget,
otherwise evict least-recently-accessed first down to 80 % of the budget.
Returns (kept, deleted). -/
def cleanupCacheIfNeeded (maxLocalCacheSize : ℕ) (cache : List CacheEntry)
    (_sessionKeys : List String) : List CacheEntry × List CacheEntry :=
  let totalSize := totalCacheSize cache
  if totalSize > maxLocalCacheSize then
    let sorted := List.insertionSort cacheLaLE cache
    let r := evictLoop ((8 * maxLocalCacheSize : ℚ) / 10) (totalSize : ℚ) sorted
    (r.2, r.1)
  else (cache, [])

theorem evictLoop_append (target : ℚ) :
    ∀ (rem : ℚ) (l : List CacheEntry),
      (evictLoop target rem l).1 ++ (evictLoop target rem l).2 = l
  | _, [] => rfl
  | rem, f :: rest => by
    by_cases hr : rem ≤ target
    · simp [evictLoop, hr]
    · simp only [evictLoop, if_neg hr, List.cons_append]
      rw [evictLoop_append target (rem - f.2.size) rest]

theorem evictLoop_kept_le (target : ℚ) (ht : 0 ≤ target) :
    ∀ (l : List CacheEntry),
      (totalCacheSize (evictLoop target (totalCacheSize l : ℚ) l).2 : ℚ) ≤ target
  | [] => by
    show ((totalCacheSize ([] : List CacheEntry) : ℕ) : ℚ) ≤ target
    unfold totalCacheSize
    simp only [List.map_nil, List.sum_nil, Nat.cast_zero]
    exact ht
  | f :: rest => by
    by_cases hr : ((totalCacheSize (f :: rest) : ℕ) : ℚ) ≤ target
    · simp only [evictLoop, if_pos hr]
      exact hr
    · have hstep : ((totalCacheSize (f :: rest) : ℕ) : ℚ) - (f.2.size : ℚ) =
          ((totalCacheSize rest : ℕ) : ℚ) := by
        simp [totalCacheSize]
      simp only [evictLoop, if_neg hr, hstep]
      exact evictLoop_kept_le target ht rest

theorem totalCacheSize_perm {l₁ l₂ : List CacheEntry} (h : l₁.Perm l₂) :
    totalCacheSize l₁ = totalCacheSize l₂ := by
  unfold totalCacheSize
  exact (h.map (fun e => e.2.size)).sum_eq

/-- C3 (amended).  When the eviction pass runs with the total above the
budget, it deletes entries in ascending `lastAccessed` order (the deleted
entries precede every kept entry in that order) until the total is at most
0.8 × budget; afterwards — all unlinks succeeding — the cache total is at
most the byte budget.  No file is protected: partial entries and entries
backing active HLS sessions are deleted like any other. -/
theorem cleanupCache_lru_bound (maxSize : ℕ) (cache : List CacheEntry)
    (sessionKeys : List String) (hover : maxSize < totalCacheSize cache) :
    (totalCacheSize (cleanupCacheIfNeeded maxSize cache sessionKeys).1 : ℚ) ≤
        (8 * maxSize : ℚ) / 10 ∧
      (totalCacheSize (cleanupCacheIfNeeded maxSize cache sessionKeys).1 : ℚ) ≤ (maxSize : ℚ) ∧
      List.Sorted cacheLaLE (cleanupCacheIfNeeded maxSize cache sessionKeys).2 ∧
      ∀ d ∈ (cleanupCacheIfNeeded maxSize cache sessionKeys).2,
        ∀ k ∈ (cleanupCacheIfNeeded maxSize cache sessionKeys).1,
          d.2.lastAccessed ≤ k.2.lastAccessed := by
  have htarget : (0 : ℚ) ≤ (8 * maxSize : ℚ) / 10 := by positivity
  have hperm : (List.insertionSort cacheLaLE cache).Perm cache :=
    List.perm_insertionSort cacheLaLE cache
  have htot : totalCacheSize (List.insertionSort cacheLaLE cache) = totalCacheSize cache :=
    totalCacheSize_perm hperm
  unfold cleanupCacheIfNeeded
  rw [if_pos hover]
  have hle : (totalCacheSize
      (evictLoop ((8 * maxSize : ℚ) / 10) ((totalCacheSize cache : ℕ) : ℚ)
        (List.insertionSort cacheLaLE cache)).2 : ℚ) ≤ (8 * maxSize : ℚ) / 10 := by
    rw [← htot]
    exact evictLoop_kept_le _ htarget _
  have hbudget : ((8 * maxSize : ℚ) / 10) ≤ (maxSize : ℚ) := by
    rw [div_le_iff₀ (by norm_num : (0:ℚ) < 10)]
    have : (0:ℚ) ≤ (maxSize : ℚ) := Nat.cast_nonneg maxSize
    linarith
  have hsorted : List.Sorted cacheLaLE (List.insertionSort cacheLaLE cache) :=
    List.sorted_insertionSort cacheLaLE cache
  have hsplit := evictLoop_append ((8 * maxSize : ℚ) / 10)
    ((totalCacheSize cache : ℕ) : ℚ) (List.insertionSort cacheLaLE cache)
  rw [← hsplit] at hsorted
  obtain ⟨hpair_del, hpair_kept, hcross⟩ := List.pairwise_append.mp hsorted
  exact ⟨hle, le_trans hle hbudget, hpair_del, fun d hd k hk => hcross d hd k hk⟩

/-- Witness for C3 (amended): two complete files of 8 bytes, budget 10; the
least-recently-accessed file is evicted, leaving 8 ≤ 0.8 · 10. -/
theorem cleanupCache_lru_bound_witness :
    10 < totalCacheSize [("a", ⟨8, 5, false⟩), ("b", ⟨8, 3, false⟩)] ∧
      ((totalCacheSize (cleanupCacheIfNeeded 10
            [("a", ⟨8, 5, false⟩), ("b", ⟨8, 3, false⟩)] []).1 : ℚ) ≤ (8 * 10 : ℚ) / 10 ∧
        (totalCacheSize (cleanupCacheIfNeeded 10
            [("a", ⟨8, 5, false⟩), ("b", ⟨8, 3, false⟩)] []).1 : ℚ) ≤ ((10 : ℕ) : ℚ) ∧
        List.Sorted cacheLaLE (cleanupCacheIfNeeded 10
            [("a", ⟨8, 5, false⟩), ("b", ⟨8, 3, false⟩)] []).2 ∧
        ∀ d ∈ (cleanupCacheIfNeeded 10
            [("a", ⟨8, 5, false⟩), ("b", ⟨8, 3, false⟩)] []).2,
          ∀ k ∈ (cleanupCacheIfNeeded 10
              [("a", ⟨8, 5, false⟩), ("b", ⟨8, 3, false⟩)] []).1,
            d.2.lastAccessed ≤ k.2.lastAccessed) :=
  ⟨by decide,
    cleanupCache_lru_bound 10 [("a", ⟨8, 5, false⟩), ("b", ⟨8, 3, false⟩)] [] (by decide)⟩

/-- Counterexample for C3 as stated: a single cache entry that is partial
(`isPartial = true`) and whose key backs an active HLS session is
nevertheless deleted by the eviction pass. -/
theorem evict_deletes_partial_counterexample :
    (cleanupCacheIfNeeded 10 [("k", ⟨20, 0, true⟩)] ["k"]).2 = [("k", ⟨20, 0, true⟩)] ∧
      (cleanupCacheIfNeeded 10 [("k", ⟨20, 0, true⟩)] ["k"]).1 = [] ∧
      (⟨20, 0, true⟩ : CacheFile).partialFlag = true := by
  refine ⟨?_, ?_, rfl⟩ <;>
    norm_num [cleanupCacheIfNeeded, List.insertionSort, List.orderedInsert, evictLoop,
      totalCacheSize]

/-! ## Segment route (router `/:key/segment:segmentFile` and `streamSegment`,
videoService.js 1455-1471)

`streamSegment` throws when the key has no native HLS session or when the
segment file is absent; the route's catch-all answers 500 with a JSON error
body.  A name failing `/(\d+)\.ts$/` answers 400. -/

def digitsToNat (l : List Char) : ℕ :=
  l.foldl (fun n c => 10 * n + (c.toNat - Char.toNat (Char.ofNat 48))) 0

/-- The route's `segmentFile.match(/(\d+)\.ts$/)`: the name must end in
`.ts` immediately preceded by at least one digit; the captured group is the
maximal trailing digit run, parsed as a decimal number. -/
def parseSegmentName (s : String) : Option ℕ :=
  let cs := s.data
  if 3 ≤ cs.length ∧ cs.drop (cs.length - 3) = ['.', 't', 's'] then
    let base := cs.take (cs.length - 3)
    let digits := (base.reverse.takeWhile Char.isDigit).reverse
    if digits.isEmpty then none else some (digitsToNat digits)
  else none

/-- `streamSegment` succeeds exactly when the key has a registered native HLS
session and `segment<idx>.ts` exists in its working directory. -/
def streamSegmentOk (sessionExists : Bool) (fileExists : ℕ → Bool) (idx : ℕ) : Bool :=
  sessionExists && fileExists idx

/-- The HTTP status of `GET /video/{key}/segment{file}`. -/
def segmentRouteStatus (sessionExists : Bool) (fileExists : ℕ → Bool)
    (segmentFile : String) : ℕ :=
  match parseSegmentName segmentFile with
  | none => 400
  | some idx => if streamSegmentOk sessionExists fileExists idx then 200 else 500

/-- Counterexample for C5 as stated: for the well-formed name `000.ts` with no
registered session (and no file), the route answers 500, not 404. -/
theorem segmentRoute_404_counterexample :
    parseSegmentName "000.ts" = some 0 ∧
      segmentRouteStatus false (fun _ => false) "000.ts" = 500 ∧
      segmentRouteStatus false (fun _ => false) "000.ts" ≠ 404 := by
  refine ⟨by decide, by decide, by decide⟩

/-- C5 (amended).  For a well-formed segment name, if the key has no session
or the segment file is absent, the response status is 500 (the thrown
`streamSegment` error reaches the route's catch-all). -/
theorem segmentRoute_missing_returns_500 (sessionExists : Bool) (fileExists : ℕ → Bool)
    (s : String) (idx : ℕ) (hparse : parseSegmentName s = some idx)
    (hmiss : sessionExists = false ∨ fileExists idx = false) :
    segmentRouteStatus sessionExists fileExists s = 500 := by
  unfold segmentRouteStatus
  rw [hparse]
  have hok : streamSegmentOk sessionExists fileExists idx = false := by
    unfold streamSegmentOk
    rcases hmiss with h | h <;> simp [h]
  dsimp only
  simp [hok]

/-- Witness for C5 (amended): segment 7 of an unknown key. -/
theorem segmentRoute_missing_returns_500_witness :
    segmentRouteStatus false (fun _ => false) "segment007.ts" = 500 :=
  segmentRoute_missing_returns_500 false (fun _ => false) "segment007.ts" 7
    (by decide) (Or.inl rfl)

/-! ## Readiness gate (`waitForInitialSegments`, router lines 14-63)

The promise polls `checkSegments` every 100 ms.  We model each poll as an
observation: either the filesystem check throws (`Except.error`, caught and
resolved) or it reports which `segment<i>.ts` files exist.  `elapsedAt n` is
`Date.now() - startTime` at the n-th poll; since polls are rescheduled with
`setTimeout(..., 100)`, at least `100·n` ms have passed by poll `n`.  The
source's executor resolves in every branch and never calls `reject`. -/

/-- JavaScript truthiness of a nullable number (`expectedSegments ?`). -/
def jsTruthy (o : Option ℕ) : Bool :=
  match o with
  | some n => decide (n ≠ 0)
  | none => false

/-- Line 19: `expectedSegments ? Math.min(minSegments, Math.max(1,
Math.ceil(expectedSegments / 2))) : minSegments`. -/
def adjustedMinSegments (minSegments : ℕ) (expectedSegments : Option ℕ) : ℕ :=
  if jsTruthy expectedSegments then
    min minSegments (max 1 ((expectedSegments.getD 0 + 1) / 2))
  else minSegments

/-- Line 20: timeout capped at 10 s when the expected total is truthy and at
most 2. -/
def adjustedTimeout (timeoutMs : ℕ) (expectedSegments : Option ℕ) : ℕ :=
  if jsTruthy expectedSegments && decide (expectedSegments.getD 0 ≤ 2) then
    min timeoutMs 10000
  else timeoutMs

/-- Line 30: the scan bound `expectedSegments || 20`. -/
def segScanBound (expectedSegments : Option ℕ) : ℕ :=
  if jsTruthy expectedSegments then expectedSegments.getD 0 else 20

inductive GateReason
  | enoughInitial
  | allExpected
  | checkError
  | timedOut
  deriving Repr, DecidableEq

/-- How the promise settles.  `rejected` is expressible but `checkSegments`
never produces it. -/
inductive GateOutcome
  | resolved (r : GateReason)
  | rejected
  deriving Repr, DecidableEq

/-- One `checkSegments` pass; `none` means another poll is scheduled. -/
def gateStep (minSegments timeoutMs : ℕ) (expectedSegments : Option ℕ)
    (obs : Except Unit (ℕ → Bool)) (elapsed : ℕ) : Option GateOutcome :=
  match obs with
  | .error _ => some (.resolved .checkError)
  | .ok present =>
    let adjMin := adjustedMinSegments minSegments expectedSegments
    let bound := segScanBound expectedSegments
    let segmentCount := (List.range bound).countP (fun i => present i && decide (i < adjMin))
    let totalSegmentCount := (List.range bound).countP (fun i => present i)
    if adjMin ≤ segmentCount then some (.resolved .enoughInitial)
    else if jsTruthy expectedSegments && decide (expectedSegments.getD 0 ≤ totalSegmentCount)
      then some (.resolved .allExpected)
    else if adjustedTimeout timeoutMs expectedSegments ≤ elapsed then
      some (.resolved .timedOut)
    else none

/-- The polling loop, with fuel bounding the number of polls inspected. -/
def runGate (minSegments timeoutMs : ℕ) (expectedSegments : Option ℕ)
    (obs : ℕ → Except Unit (ℕ → Bool)) (elapsedAt : ℕ → ℕ) :
    ℕ → ℕ → Option GateOutcome
  | 0, _ => none
  | fuel + 1, idx =>
    match gateStep minSegments timeoutMs expectedSegments (obs idx) (elapsedAt idx) with
    | some o => some o
    | none => runGate minSegments timeoutMs expectedSegments obs elapsedAt fuel (idx + 1)

theorem gateStep_some_shape (minSegments timeoutMs : ℕ) (expectedSegments : Option ℕ)
    (obs : Except Unit (ℕ → Bool)) (elapsed : ℕ) (o : GateOutcome)
    (h : gateStep minSegments timeoutMs expectedSegments obs elapsed = some o) :
    ∃ r, o = GateOutcome.resolved r := by
  cases obs with
  | error u =>
    refine ⟨.checkError, ?_⟩
    have : some (GateOutcome.resolved .checkError) = some o := h
    exact (Option.some.inj this).symm
  | ok present =>
    unfold gateStep at h
    dsimp only at h
    split_ifs at h
    · exact ⟨_, (Option.some.inj h).symm⟩
    · exact ⟨_, (Option.some.inj h).symm⟩
    · exact ⟨_, (Option.some.inj h).symm⟩

theorem gateStep_some_of_elapsed (minSegments timeoutMs : ℕ) (expectedSegments : Option ℕ)
    (obs : Except Unit (ℕ → Bool)) (elapsed : ℕ)
    (h : adjustedTimeout timeoutMs expectedSegments ≤ elapsed) :
    ∃ r, gateStep minSegments timeoutMs expectedSegments obs elapsed =
      some (.resolved r) := by
  cases obs with
  | error u => exact ⟨.checkError, rfl⟩
  | ok present =>
    unfold gateStep
    dsimp only
    split_ifs
    · exact ⟨.enoughInitial, rfl⟩
    · exact ⟨.allExpected, rfl⟩
    · exact ⟨.timedOut, rfl⟩

theorem runGate_never_rejected (minSegments timeoutMs : ℕ) (expectedSegments : Option ℕ)
    (obs : ℕ → Except Unit (ℕ → Bool)) (elapsedAt : ℕ → ℕ) :
    ∀ fuel idx,
      runGate minSegments timeoutMs expectedSegments obs elapsedAt fuel idx ≠
        some GateOutcome.rejected := by
  intro fuel
  induction fuel with
  | zero => intro idx h; cases h
  | succ n ih =>
    intro idx h
    unfold runGate at h
    rcases hstep : gateStep minSegments timeoutMs expectedSegments (obs idx) (elapsedAt idx)
      with _ | o
    · rw [hstep] at h
      exact ih (idx + 1) h
    · rw [hstep] at h
      cases h
      obtain ⟨r, hr⟩ := gateStep_some_shape _ _ _ _ _ _ hstep
      cases hr

theorem runGate_resolves (minSegments timeoutMs : ℕ) (expectedSegments : Option ℕ)
    (obs : ℕ → Except Unit (ℕ → Bool)) (elapsedAt : ℕ → ℕ) :
    ∀ (fuel idx : ℕ),
      adjustedTimeout timeoutMs expectedSegments ≤ elapsedAt (idx + fuel) →
      ∃ r, runGate minSegments timeoutMs expectedSegments obs elapsedAt (fuel + 1) idx =
        some (.resolved r) := by
  intro fuel
  induction fuel with
  | zero =>
    intro idx h
    obtain ⟨r, hr⟩ := gateStep_some_of_elapsed minSegments timeoutMs expectedSegments
      (obs idx) (elapsedAt idx) (by simpa using h)
    exact ⟨r, by unfold runGate; rw [hr]⟩
  | succ n ih =>
    intro idx h
    rcases hstep : gateStep minSegments timeoutMs expectedSegments (obs idx) (elapsedAt idx)
      with _ | o
    · have h' : adjustedTimeout timeoutMs expectedSegments ≤ elapsedAt ((idx + 1) + n) := by
        have : (idx + 1) + n = idx + (n + 1) := by omega
        rw [this]
        exact h
      obtain ⟨r, hr⟩ := ih (idx + 1) h'
      exact ⟨r, by unfold runGate; rw [hstep]; exact hr⟩
    · obtain ⟨r, hr⟩ := gateStep_some_shape _ _ _ _ _ _ hstep
      subst hr
      exact ⟨r, by unfold runGate; rw [hstep]⟩

/-- C4.  With polls at least 100 ms apart, the readiness gate always settles
by resolution: it resolves when enough segments appear, resolves on a check
error, resolves once the (adjusted) timeout has elapsed with however many
segments exist, and no execution ever rejects. -/
theorem readinessGate_always_resolves (minSegments timeoutMs : ℕ)
    (expectedSegments : Option ℕ) (obs : ℕ → Except Unit (ℕ → Bool))
    (elapsedAt : ℕ → ℕ) (hel : ∀ n, 100 * n ≤ elapsedAt n) :
    (∃ r, runGate minSegments timeoutMs expectedSegments obs elapsedAt
        (adjustedTimeout timeoutMs expectedSegments / 100 + 2) 0 =
      some (.resolved r)) ∧
      ∀ fuel idx,
        runGate minSegments timeoutMs expectedSegments obs elapsedAt fuel idx ≠
          some GateOutcome.rejected := by
  constructor
  · have hfar : adjustedTimeout timeoutMs expectedSegments ≤
        elapsedAt (0 + (adjustedTimeout timeoutMs expectedSegments / 100 + 1)) := by
      have h1 := hel (0 + (adjustedTimeout timeoutMs expectedSegments / 100 + 1))
      omega
    exact runGate_resolves minSegments timeoutMs expectedSegments obs elapsedAt
      (adjustedTimeout timeoutMs expectedSegments / 100 + 1) 0 hfar
  · exact runGate_never_rejected minSegments timeoutMs expectedSegments obs elapsedAt

/-- Witness for C4: default parameters, no segments ever appearing, polls
exactly 100 ms apart — the gate still resolves (by timeout). -/
theorem readinessGate_always_resolves_witness :
    (∃ r, runGate 2 30000 none (fun _ => Except.ok (fun _ => false)) (fun n => 100 * n)
        (adjustedTimeout 30000 none / 100 + 2) 0 = some (.resolved r)) ∧
      ∀ fuel idx,
        runGate 2 30000 none (fun _ => Except.ok (fun _ => false)) (fun n => 100 * n)
            fuel idx ≠ some GateOutcome.rejected :=
  readinessGate_always_resolves 2 30000 none _ _ (fun n => Nat.le_refl (100 * n))

/-- C9.  For a known positive expected total of at most two segments (and a
configured minimum of at least one), the gate shrinks the minimum segment
count to `ceil(expected/2)` and caps the effective timeout at 10 s. -/
theorem gate_shortAsset_adjustments (minSegments timeoutMs e : ℕ)
    (he1 : 1 ≤ e) (he2 : e ≤ 2) (hm : 1 ≤ minSegments) :
    adjustedMinSegments minSegments (some e) = (e + 1) / 2 ∧
      adjustedTimeout timeoutMs (some e) ≤ 10000 := by
  have h0 : e ≠ 0 := by omega
  constructor
  · have ht : jsTruthy (some e) = true := by simp [jsTruthy, h0]
    simp only [adjustedMinSegments, ht, if_true, Option.getD_some]
    omega
  · have hcond : (jsTruthy (some e) && decide (Option.getD (some e) 0 ≤ 2)) = true := by
      simp [jsTruthy, h0, he2]
    simp only [adjustedTimeout, hcond, if_true]
    omega

/-- Witness for C9: expected total 2, defaults 2 / 30000; the minimum shrinks
to 1 and the timeout to 10 s. -/
theorem gate_shortAsset_adjustments_witness :
    adjustedMinSegments 2 (some 2) = (2 + 1) / 2 ∧
      adjustedTimeout 30000 (some 2) ≤ 10000 :=
  gate_shortAsset_adjustments 2 30000 2 (by decide) (by decide) (by decide)

/-! ## Progress report (`getVideoProgress`, videoService.js 1541-1669)

The report is computed from the observed state: the local cache entry, the
probe (its `size` for the download total fallback and its `duration` for the
segment count; `none` models a failed probe or `NaN`, both of which leave the
status untouched), the generation-in-progress flag, the HLS session entry and
the segment files on disk.  The human-readable message and the time-based
`estimatedTimeRemaining` are not modelled.  In JavaScript a zero expected
segment count makes `processingProgress` `NaN` (modelled as 0 here); the
status in that case is `ready` via `existingSegments === expectedSegments`,
so the claimed fields are unaffected. -/

inductive PStatus
  | initializing
  | starting
  | downloading
  | downloaded
  | processing
  | ready
  | error
  deriving Repr, DecidableEq

/-- The cache-entry fields the report reads; `totalSize` 0 models a falsy
(absent) content length. -/
structure ProgressCacheEntry where
  size : ℕ
  totalSize : ℕ
  partialFlag : Bool
  deriving Repr, DecidableEq

structure ProgressInput where
  cacheEntry : Option ProgressCacheEntry
  probeSize : Option ℕ
  generationInProgress : Bool
  hlsEntryExists : Bool
  probeDuration : Option ℚ
  segPresent : ℕ → Bool

structure ProgressResult where
  status : PStatus
  downloadProgress : ℤ
  processingProgress : ℤ
  overallProgress : ℤ
  ready : Bool

/-- Lines 1553-1588: download progress and the `downloaded` / `downloading`
statuses. -/
def progressStage1 (inp : ProgressInput) : PStatus × ℤ :=
  match inp.cacheEntry with
  | none => (.initializing, 0)
  | some e =>
    let total : ℕ := if e.totalSize ≠ 0 then e.totalSize else inp.probeSize.getD 0
    if e.partialFlag = false then (.downloaded, 100)
    else if e.size ≠ 0 ∧ total ≠ 0 then
      (.downloading, jsRound ((e.size : ℚ) / (total : ℚ) * 100))
    else (.initializing, 0)

/-- Lines 1591-1595: `starting` when generation is in progress with no HLS
cache entry yet. -/
def progressStage2 (inp : ProgressInput) : PStatus :=
  if inp.generationInProgress && !inp.hlsEntryExists then .starting
  else (progressStage1 inp).1

/-- Lines 1598-1633: segment counting against `ceil(duration / 10)`, the
`ready` threshold `min(3, max(1, ceil(expected / 2)))`, and the `processing`
status. -/
def progressStage3 (inp : ProgressInput) : PStatus × ℤ :=
  if inp.hlsEntryExists then
    match inp.probeDuration with
    | none => (progressStage2 inp, 0)
    | some d =>
      let expectedZ : ℤ := ⌈d / 10⌉
      let existing : ℕ := (List.range expectedZ.toNat).countP (fun i => inp.segPresent i)
      let pp : ℤ := jsRound ((existing : ℚ) / (expectedZ : ℚ) * 100)
      let minReady : ℤ := min 3 (max 1 ⌈(expectedZ : ℚ) / 2⌉)
      if minReady ≤ (existing : ℤ) ∨ (existing : ℤ) = expectedZ then (.ready, pp)
      else if 0 < existing then (.processing, pp)
      else (progressStage2 inp, pp)
  else (progressStage2 inp, 0)

/-- Lines 1636-1645: the overall-progress combination. -/
def overallOf (st : PStatus) (dp pp : ℤ) : ℤ :=
  match st with
  | .ready => 100
  | .processing => jsRound ((50 : ℚ) + (pp : ℚ) * (1/2))
  | .downloading => jsRound ((dp : ℚ) * (1/2))
  | _ => 0

def getVideoProgress (inp : ProgressInput) : ProgressResult :=
  { status := (progressStage3 inp).1
    downloadProgress := (progressStage1 inp).2
    processingProgress := (progressStage3 inp).2
    overallProgress :=
      overallOf (progressStage3 inp).1 (progressStage1 inp).2 (progressStage3 inp).2
    ready := decide ((progressStage3 inp).1 = .ready) }

/-- C8.  `overallProgress` is `round(downloadProgress · 0.5)` while
downloading, `round(50 + processingProgress · 0.5)` while processing, and 100
at `ready`; the `ready` flag holds exactly when the status is `ready`. -/
theorem videoProgress_overall_formula (inp : ProgressInput) :
    ((getVideoProgress inp).status = PStatus.downloading →
      (getVideoProgress inp).overallProgress =
        jsRound (((getVideoProgress inp).downloadProgress : ℚ) * (1/2))) ∧
    ((getVideoProgress inp).status = PStatus.processing →
      (getVideoProgress inp).overallProgress =
        jsRound (50 + ((getVideoProgress inp).processingProgress : ℚ) * (1/2))) ∧
    ((getVideoProgress inp).status = PStatus.ready →
      (getVideoProgress inp).overallProgress = 100) ∧
    ((getVideoProgress inp).ready = true ↔ (getVideoProgress inp).status = PStatus.ready) := by
  refine ⟨?_, ?_, ?_, ?_⟩
  · intro h
    have h' : (progressStage3 inp).1 = PStatus.downloading := h
    show overallOf (progressStage3 inp).1 (progressStage1 inp).2 (progressStage3 inp).2 =
      jsRound (((progressStage1 inp).2 : ℚ) * (1/2))
    rw [h']
    rfl
  · intro h
    have h' : (progressStage3 inp).1 = PStatus.processing := h
    show overallOf (progressStage3 inp).1 (progressStage1 inp).2 (progressStage3 inp).2 =
      jsRound (50 + ((progressStage3 inp).2 : ℚ) * (1/2))
    rw [h']
    rfl
  · intro h
    have h' : (progressStage3 inp).1 = PStatus.ready := h
    show overallOf (progressStage3 inp).1 (progressStage1 inp).2 (progressStage3 inp).2 = 100
    rw [h']
    rfl
  · show decide ((progressStage3 inp).1 = PStatus.ready) = true ↔
      (progressStage3 inp).1 = PStatus.ready
    exact decide_eq_true_iff

/-- Witness for C8: a half-downloaded file with no HLS session; the status is
`downloading` and the overall progress follows the download formula. -/
theorem videoProgress_overall_formula_witness :
    (getVideoProgress ⟨some ⟨50, 100, true⟩, none, false, false, none, fun _ => false⟩).status =
        PStatus.downloading ∧
      (getVideoProgress
          ⟨some ⟨50, 100, true⟩, none, false, false, none, fun _ => false⟩).overallProgress =
        jsRound (((getVideoProgress
            ⟨some ⟨50, 100, true⟩, none, false, false, none,
              fun _ => false⟩).downloadProgress : ℚ) * (1/2)) :=
  ⟨rfl,
    (videoProgress_overall_formula
        ⟨some ⟨50, 100, true⟩, none, false, false, none, fun _ => false⟩).1 rfl⟩

end WVR
